import Mathlib

/-!
Verification of the auto-grading-algebra relay endpoint and upload client.

Strings are embedded as `List Char`; a JavaScript string `s` corresponds to
its list of characters (all characters relevant to the claims are in the
Basic Multilingual Plane, where JavaScript's UTF-16 `length` agrees with the
character count).
-/

namespace AutoGrading

/-- The character class `[A-Za-z-+\/]` of the data-URI regex in
`decodeBase64Image`: ASCII letters, `-`, `+` and `/`. -/
def mimeChar (c : Char) : Bool :=
  ('A' ≤ c && c ≤ 'Z') || ('a' ≤ c && c ≤ 'z') || c = '-' || c = '+' || c = '/'

/-- JavaScript line terminators, which `.` in a regex without the `s` flag
does not match. -/
def isLineTerminator (c : Char) : Bool :=
  c = '\n' || c = '\r' || c = '\u2028' || c = '\u2029'

/-- Match a literal character sequence at the front of a string, returning
the remainder on success (used for the literal parts `data:` and `;base64,`
of the regex). -/
def dropLit : List Char → List Char → Option (List Char)
  | [], s => some s
  | _ :: _, [] => none
  | t :: ts, c :: cs => if c = t then dropLit ts cs else none

/-- Embedding of `dataString.match(/^data:([A-Za-z-+\/]+);base64,(.+)$/)`
from `decodeBase64Image`.

The regex is anchored at both ends and has no flags.  It matches exactly the
strings `data:<mime>;base64,<payload>` where `<mime>` is a nonempty run of
`mimeChar` characters (the run is maximal: the class excludes `;`, so the
greedy `+` stops at the first non-class character, which must then start the
literal `;base64,`) and `<payload>` is nonempty and contains no line
terminator (`.` does not cross line terminators and `$` without the `m` flag
only matches at the end of the input, so the greedy `(.+)$` captures the
whole remainder or fails).  Returns the two capture groups. -/
def dataURIMatch (s : List Char) : Option (List Char × List Char) :=
  match dropLit ("data:".data) s with
  | none => none
  | some r1 =>
    let mt := r1.takeWhile mimeChar
    match dropLit (";base64,".data) (r1.dropWhile mimeChar) with
    | none => none
    | some payload =>
      if mt = [] then none
      else if payload = [] then none
      else if payload.any isLineTerminator then none
      else some (mt, payload)

/-- Embedding of `decodeBase64Image` from the route handler: runs the regex
match and returns the pair `(mimeType, image)` of optional capture groups
(`matches?.[1]`, `matches?.[2]`), both absent when the match fails. -/
def decodeBase64Image (dataString : List Char) : Option (List Char) × Option (List Char) :=
  match dataURIMatch dataString with
  | none => (none, none)
  | some (mt, img) => (some mt, some img)

/-- Modelled from the spec: `isSupportedImageType` is imported from
`@/app/utils`, a file not present in the provided sources.  Per the spec,
the MIME type must be one of the fixed allow-list
{image/jpeg, image/png, image/gif, image/webp}. -/
def isSupportedImageType (t : List Char) : Bool :=
  t = "image/jpeg".data || t = "image/png".data ||
  t = "image/gif".data || t = "image/webp".data

/-- The fixed instructional prompt text `prompt_task` of the route handler
(a template literal; leading/trailing whitespace reproduced exactly). -/
def prompt_task : List Char :=
  ("\n  You are given an image of a handwritten answer of a middle school algebra question from a middle school student. \n  In the answer there is some irrelevant words that could be in any language or some deleted expressions. \n\n  Please do the following: \n  1. Recognize the original problem and the type of the problem. \n  2. Recognize the expressions in each step and its correctness. \n  3. Justify if the final answer is correct. \n  4. Generate a rubrics with 5 total points for this question. \n  5. Justify how many points will you award each item in the rubrics and calculate the final score.\n").data

/-- The sentinel marker character seeding the assistant message and used by
the client to split the completion. -/
def sentinel : Char := '▲'

/-- One part of a message's `content` array: a text part or an image part
with its MIME type. -/
inductive ContentPart where
  | text (t : List Char)
  | image (image : List Char) (mimeType : List Char)
deriving DecidableEq

/-- One message of the conversation sent to the hosted model. -/
structure Message where
  role : List Char
  content : List ContentPart
deriving DecidableEq

/-- The two-message conversation the route handler passes to `streamText`:
a user message with the fixed prompt text and the decoded image, then an
assistant message whose content is solely the sentinel. -/
def relayMessages (mimeType image : List Char) : List Message :=
  [ { role := "user".data,
      content := [ContentPart.text prompt_task, ContentPart.image image mimeType] },
    { role := "assistant".data,
      content := [ContentPart.text [sentinel]] } ]

/-- Body of the 400 response for an oversize payload. -/
def oversizeBody : List Char := "Image too large, maximum file size is 4.5MB.".data

/-- Body of the 400 response for an unparseable data-URI. -/
def invalidBody : List Char := "Invalid image data".data

/-- Body of the 400 response for a MIME type outside the allow-list. -/
def unsupportedBody : List Char :=
  "Unsupported format. Only JPEG, PNG, GIF, and WEBP files are supported.".data

/-- The observable outcome of one call to the relay endpoint: the HTTP
status, the response body as the ordered sequence of chunks streamed to the
caller (error responses are a single chunk), and the ordered list of
conversations sent to the external model. -/
structure RelayResponse where
  status : Nat
  body : List (List Char)
  modelCalls : List (List Message)
deriving DecidableEq

/-- Embedding of the `POST` route handler.  `model` is the external hosted
model, an oracle mapping a conversation to the ordered chunk stream its
streaming call produces; the handler forwards that stream verbatim as the
200 response body. -/
def POST (model : List Message → List (List Char)) (prompt : List Char) : RelayResponse :=
  if prompt.length > 6464471 then
    ⟨400, [oversizeBody], []⟩
  else
    match decodeBase64Image prompt with
    | (some mimeType, some image) =>
      if isSupportedImageType mimeType then
        ⟨200, model (relayMessages mimeType image), [relayMessages mimeType image]⟩
      else
        ⟨400, [unsupportedBody], []⟩
    | _ => ⟨400, [invalidBody], []⟩

/-- A file or blob as the client's `submit` sees it: its MIME `type`, its
byte `size`, and the data-URL string `toBase64` resolves with.  (`toBase64`
wraps `FileReader.readAsDataURL`; the encoding itself is performed by the
browser, so the resulting string is carried as a field.) -/
structure ClientFile where
  type : List Char
  size : Nat
  dataURL : List Char
deriving DecidableEq

/-- One observable effect of the client's `submit` function, in program
order: an error toast, `setBlobURL(URL.createObjectURL(file))`,
`setFinished`, or the `complete` call that issues the network request. -/
inductive ClientEffect where
  | toastError (msg : List Char)
  | createBlobURL
  | setFinished (b : Bool)
  | complete (payload : List Char)
deriving DecidableEq

/-- Embedding of the client's `submit(file?)` function from `page.tsx`,
returning the ordered list of effects it performs.  `4.5 * 1024 * 1024`
is exactly `4718592`. -/
def submit (file : Option ClientFile) : List ClientEffect :=
  match file with
  | none => []
  | some f =>
    if !(isSupportedImageType f.type) then
      [ClientEffect.toastError unsupportedBody]
    else if f.size > 4718592 then
      [ClientEffect.toastError oversizeBody]
    else if f.dataURL.length > 6464471 then
      [ClientEffect.toastError oversizeBody]
    else
      [ClientEffect.createBlobURL, ClientEffect.setFinished false,
       ClientEffect.complete f.dataURL]

/-- Embedding of JavaScript `String.prototype.split` with a single-character
separator and no limit: splits at every occurrence of `sep`, keeping empty
segments, and always returns at least one segment. -/
def jsSplitChar (sep : Char) : List Char → List (List Char)
  | [] => [[]]
  | c :: cs =>
    if c = sep then [] :: jsSplitChar sep cs
    else
      match jsSplitChar sep cs with
      | [] => [[c]]
      | t :: ts => (c :: t) :: ts

/-- The `description` binding of
`const [description, text] = completion.split("▲")`: the first segment
(always present, since `split` never returns an empty array). -/
def homeDescription (completion : List Char) : List Char :=
  (jsSplitChar sentinel completion).headD []

/-- The `text` binding of
`const [description, text] = completion.split("▲")`: the second segment, or
`undefined` (here `none`) when the split yields fewer than two segments. -/
def homeText (completion : List Char) : Option (List Char) :=
  (jsSplitChar sentinel completion)[1]?

/-- A string of the data-URI shape `data:<m>;base64,<p>` with the given
MIME part and payload part (used to state properties of the regex over that
shape). -/
def dataURI (m p : List Char) : List Char :=
  "data:".data ++ (m ++ (";base64,".data ++ p))

end AutoGrading

namespace AutoGrading

example : decodeBase64Image ("not-a-data-uri".data) = (none, none) := by decide

example : jsSplitChar sentinel ("a▲b▲c".data) = ["a".data, "b".data, "c".data] := by decide

example : homeDescription ("ab".data) = "ab".data ∧ homeText ("ab".data) = none := by decide

example : homeText ("a▲b▲c".data) = some ("b".data) := by decide

/-! ### Helper lemmas about the relay handler -/

lemma POST_oversize (model : List Message → List (List Char)) (prompt : List Char)
    (h : prompt.length > 6464471) :
    POST model prompt = ⟨400, [oversizeBody], []⟩ := by
  unfold POST
  rw [if_pos h]

lemma POST_invalid (model : List Message → List (List Char)) (prompt : List Char)
    (hlen : ¬ prompt.length > 6464471)
    (hdec : (decodeBase64Image prompt).1 = none ∨ (decodeBase64Image prompt).2 = none) :
    POST model prompt = ⟨400, [invalidBody], []⟩ := by
  unfold POST
  rw [if_neg hlen]
  rcases hd : decodeBase64Image prompt with ⟨mo, io⟩
  rw [hd] at hdec
  cases mo with
  | none => rfl
  | some mt =>
    cases io with
    | none => rfl
    | some img => simp at hdec

lemma POST_unsupported (model : List Message → List (List Char)) (prompt mt img : List Char)
    (hlen : ¬ prompt.length > 6464471)
    (hdec : decodeBase64Image prompt = (some mt, some img))
    (hsup : isSupportedImageType mt = false) :
    POST model prompt = ⟨400, [unsupportedBody], []⟩ := by
  unfold POST
  rw [if_neg hlen, hdec]
  simp [hsup]

lemma POST_stream (model : List Message → List (List Char)) (prompt mt img : List Char)
    (hlen : ¬ prompt.length > 6464471)
    (hdec : decodeBase64Image prompt = (some mt, some img))
    (hsup : isSupportedImageType mt = true) :
    POST model prompt = ⟨200, model (relayMessages mt img), [relayMessages mt img]⟩ := by
  unfold POST
  rw [if_neg hlen, hdec]
  simp [hsup]

/-! ### Claim theorems: relay validation -/

/-- C1: for every inbound request whose prompt string has length greater
than 6,464,471 characters, the relay returns HTTP 400 with body
"Image too large, maximum file size is 4.5MB." and performs no call to the
external model. -/
theorem relay_oversize_error (model : List Message → List (List Char)) (prompt : List Char)
    (h : prompt.length > 6464471) :
    POST model prompt = ⟨400, [oversizeBody], []⟩ :=
  POST_oversize model prompt h

/-- Witness for C1 at a concrete oversize prompt. -/
theorem relay_oversize_error_witness :
    POST (fun _ => []) (List.replicate 6464472 'a') = ⟨400, [oversizeBody], []⟩ :=
  relay_oversize_error (fun _ => []) (List.replicate 6464472 'a')
    (by rw [List.length_replicate]; omega)

/-- C2: for every prompt within the size limit that does not match the
pattern `data:<mimeType>;base64,<payload>` (no MIME type or no payload
captured), the relay returns HTTP 400 with body "Invalid image data" and
performs no call to the external model. -/
theorem relay_invalid_data_error (model : List Message → List (List Char)) (prompt : List Char)
    (hlen : ¬ prompt.length > 6464471)
    (hdec : (decodeBase64Image prompt).1 = none ∨ (decodeBase64Image prompt).2 = none) :
    POST model prompt = ⟨400, [invalidBody], []⟩ :=
  POST_invalid model prompt hlen hdec

/-- Witness for C2 at the spec's example input `"not-a-data-uri"`. -/
theorem relay_invalid_data_error_witness :
    POST (fun _ => []) ("not-a-data-uri".data) = ⟨400, [invalidBody], []⟩ :=
  relay_invalid_data_error (fun _ => []) ("not-a-data-uri".data)
    (by decide) (by decide)

/-- C3: for every prompt within the size limit that parses as a data-URI
whose MIME type is outside {image/jpeg, image/png, image/gif, image/webp},
the relay returns HTTP 400 with the unsupported-format body and performs no
call to the external model. -/
theorem relay_unsupported_format_error (model : List Message → List (List Char))
    (prompt mt img : List Char)
    (hlen : ¬ prompt.length > 6464471)
    (hdec : decodeBase64Image prompt = (some mt, some img))
    (hsup : isSupportedImageType mt = false) :
    POST model prompt = ⟨400, [unsupportedBody], []⟩ :=
  POST_unsupported model prompt mt img hlen hdec hsup

/-- Witness for C3 at the spec's example input `"data:image/bmp;base64,AAAA"`. -/
theorem relay_unsupported_format_error_witness :
    POST (fun _ => []) ("data:image/bmp;base64,AAAA".data) = ⟨400, [unsupportedBody], []⟩ :=
  relay_unsupported_format_error (fun _ => []) ("data:image/bmp;base64,AAAA".data)
    ("image/bmp".data) ("AAAA".data) (by decide) (by decide) (by decide)

/-- C4: the validation checks run in the fixed order size-limit, then
data-URI parse, then MIME allow-list, each failure terminal: an oversize
prompt gets the oversize error no matter what else is wrong with it; a
size-ok prompt failing the parse gets the invalid-data error; a size-ok,
parseable prompt with an unsupported MIME type gets the unsupported-format
error. -/
theorem relay_validation_order (model : List Message → List (List Char)) (prompt : List Char) :
    (prompt.length > 6464471 → POST model prompt = ⟨400, [oversizeBody], []⟩) ∧
    (¬ prompt.length > 6464471 →
      ((decodeBase64Image prompt).1 = none ∨ (decodeBase64Image prompt).2 = none) →
      POST model prompt = ⟨400, [invalidBody], []⟩) ∧
    (∀ mt img, ¬ prompt.length > 6464471 →
      decodeBase64Image prompt = (some mt, some img) →
      isSupportedImageType mt = false →
      POST model prompt = ⟨400, [unsupportedBody], []⟩) :=
  ⟨fun h => POST_oversize model prompt h,
   fun h1 h2 => POST_invalid model prompt h1 h2,
   fun mt img h1 h2 h3 => POST_unsupported model prompt mt img h1 h2 h3⟩

/-- Witness for C4: a prompt of length 6,464,472 that is also malformed
(it is not a data-URI at all) gets the oversize error, not a later one. -/
theorem relay_validation_order_witness :
    POST (fun _ => []) (List.replicate 6464472 '!') = ⟨400, [oversizeBody], []⟩ :=
  (relay_validation_order (fun _ => []) (List.replicate 6464472 '!')).1
    (by rw [List.length_replicate]; omega)

/-- C5: for every valid request the relay responds with HTTP 200, issues
exactly one call to the external model, and its response body is exactly
the chunk sequence that call produces, in order, unmodified. -/
theorem relay_valid_request_streams (model : List Message → List (List Char))
    (prompt mt img : List Char)
    (hlen : ¬ prompt.length > 6464471)
    (hdec : decodeBase64Image prompt = (some mt, some img))
    (hsup : isSupportedImageType mt = true) :
    (POST model prompt).status = 200 ∧
    (POST model prompt).modelCalls = [relayMessages mt img] ∧
    (POST model prompt).body = model (relayMessages mt img) := by
  rw [POST_stream model prompt mt img hlen hdec hsup]
  exact ⟨rfl, rfl, rfl⟩

/-- Witness for C5 at a concrete valid request and a two-chunk model. -/
theorem relay_valid_request_streams_witness :
    (POST (fun _ => ["first ".data, "second".data]) ("data:image/png;base64,AAAA".data)).status
        = 200 ∧
    (POST (fun _ => ["first ".data, "second".data])
        ("data:image/png;base64,AAAA".data)).modelCalls
      = [relayMessages ("image/png".data) ("AAAA".data)] ∧
    (POST (fun _ => ["first ".data, "second".data])
        ("data:image/png;base64,AAAA".data)).body
      = ["first ".data, "second".data] :=
  relay_valid_request_streams (fun _ => ["first ".data, "second".data])
    ("data:image/png;base64,AAAA".data) ("image/png".data) ("AAAA".data)
    (by decide) (by decide) (by decide)

/-- C6: on every valid request the conversation sent to the hosted model is
exactly two messages: a user message with the fixed instructional prompt
text and the decoded image with its MIME type, then an assistant message
whose content is solely the sentinel marker character. -/
theorem relay_conversation_shape (model : List Message → List (List Char))
    (prompt mt img : List Char)
    (hlen : ¬ prompt.length > 6464471)
    (hdec : decodeBase64Image prompt = (some mt, some img))
    (hsup : isSupportedImageType mt = true) :
    (POST model prompt).modelCalls =
      [[⟨"user".data, [ContentPart.text prompt_task, ContentPart.image img mt]⟩,
        ⟨"assistant".data, [ContentPart.text [sentinel]]⟩]] := by
  rw [POST_stream model prompt mt img hlen hdec hsup]
  rfl

/-- Witness for C6 at a concrete valid request. -/
theorem relay_conversation_shape_witness :
    (POST (fun _ => []) ("data:image/gif;base64,BBBB".data)).modelCalls =
      [[⟨"user".data, [ContentPart.text prompt_task,
          ContentPart.image ("BBBB".data) ("image/gif".data)]⟩,
        ⟨"assistant".data, [ContentPart.text [sentinel]]⟩]] :=
  relay_conversation_shape (fun _ => []) ("data:image/gif;base64,BBBB".data)
    ("image/gif".data) ("BBBB".data) (by decide) (by decide) (by decide)

/-! ### Claim theorems: client -/

/-- C8: for every file with an unsupported MIME type, or raw size over
4.5 × 1024 × 1024 bytes, or base64 (data-URL) length over 6,464,471, the
client's `submit` reports an error toast and performs no `complete` call,
so the upload never reaches the relay. -/
theorem client_prevalidation_blocks (f : ClientFile)
    (h : isSupportedImageType f.type = false ∨ f.size > 4718592 ∨
      f.dataURL.length > 6464471) :
    (∃ msg, submit (some f) = [ClientEffect.toastError msg]) ∧
    ∀ payload, ClientEffect.complete payload ∉ submit (some f) := by
  have hs : ∃ msg, submit (some f) = [ClientEffect.toastError msg] := by
    by_cases h1 : isSupportedImageType f.type
    · by_cases h2 : f.size > 4718592
      · exact ⟨oversizeBody, by simp [submit, h1, h2]⟩
      · have h3 : f.dataURL.length > 6464471 := by
          rcases h with h | h | h
          · rw [h] at h1; exact absurd h1 (by simp)
          · exact absurd h h2
          · exact h
        exact ⟨oversizeBody, by simp [submit, h1, h2, h3]⟩
    · exact ⟨unsupportedBody, by simp [submit, h1]⟩
  obtain ⟨msg, hm⟩ := hs
  refine ⟨⟨msg, hm⟩, ?_⟩
  intro payload hp
  rw [hm] at hp
  simp at hp

/-- Witness for C8 at a concrete unsupported file. -/
theorem client_prevalidation_blocks_witness :
    (∃ msg, submit (some ⟨"image/bmp".data, 4, "data:image/bmp;base64,AAAA".data⟩) =
      [ClientEffect.toastError msg]) ∧
    ∀ payload, ClientEffect.complete payload ∉
      submit (some ⟨"image/bmp".data, 4, "data:image/bmp;base64,AAAA".data⟩) :=
  client_prevalidation_blocks ⟨"image/bmp".data, 4, "data:image/bmp;base64,AAAA".data⟩
    (by decide)

/-- C10: calling `submit` with no file is a complete no-op: no toast, no
state change, no network call. -/
theorem submit_none_noop : submit none = [] := rfl

/-! ### Helper lemmas about the client split -/

lemma jsSplitChar_count_zero (sep : Char) (s : List Char) (h : s.count sep = 0) :
    jsSplitChar sep s = [s] := by
  induction s with
  | nil => rfl
  | cons c cs ih =>
    simp only [List.count_cons] at h
    by_cases hc : c = sep
    · simp [hc] at h
    · rw [if_neg (show ¬((c == sep) = true) by simp [hc])] at h
      simp only [jsSplitChar]
      rw [if_neg hc, ih (by omega)]

lemma jsSplitChar_pos (sep : Char) (s : List Char) (h : 1 ≤ s.count sep) :
    ∃ d u, sep ∉ d ∧ s = d ++ sep :: u ∧
      jsSplitChar sep s = d :: jsSplitChar sep u := by
  induction s with
  | nil => simp at h
  | cons c cs ih =>
    by_cases hc : c = sep
    · subst hc
      exact ⟨[], cs, by simp, rfl, by simp [jsSplitChar]⟩
    · have h1 : 1 ≤ cs.count sep := by
        simp only [List.count_cons] at h
        rw [if_neg (show ¬((c == sep) = true) by simp [hc])] at h
        omega
      obtain ⟨d, u, hd, hsu, hsp⟩ := ih h1
      refine ⟨c :: d, u, ?_, ?_, ?_⟩
      · intro hm
        rcases List.mem_cons.mp hm with e | e
        · exact hc e.symm
        · exact hd e
      · rw [hsu]; rfl
      · simp only [jsSplitChar]
        rw [if_neg hc, hsp]

/-! ### Claim theorems: client split (C7) -/

/-- C7 counterexample: on the completion `"a▲b▲c"`, which contains two
sentinels, the extra third segment `"c"` is dropped entirely by
`const [description, text] = completion.split("▲")` — it appears in neither
displayed section — rather than being treated as part of the text section. -/
theorem client_split_counterexample :
    ("a▲b▲c".data).count sentinel = 2 ∧
    homeDescription ("a▲b▲c".data) = "a".data ∧
    homeText ("a▲b▲c".data) = some ("b".data) ∧
    'c' ∈ "a▲b▲c".data ∧ 'c' ∉ "a".data ∧ 'c' ∉ "b".data := by decide

/-- C7 (amended): the client splits the completion on the sentinel; with
exactly one sentinel this yields exactly the two displayed segments; with
zero sentinels the text section is `undefined` and the whole string is the
description; with two or more sentinels the text section is the second
segment only, and the remainder after the second sentinel is discarded.
In every case the split is total (no crash). -/
theorem client_split_amended (s : List Char) :
    (s.count sentinel = 0 → homeDescription s = s ∧ homeText s = none) ∧
    (s.count sentinel = 1 →
      sentinel ∉ homeDescription s ∧
      ∃ t, homeText s = some t ∧ sentinel ∉ t ∧
        s = homeDescription s ++ sentinel :: t) ∧
    (2 ≤ s.count sentinel →
      sentinel ∉ homeDescription s ∧
      ∃ t r, homeText s = some t ∧ sentinel ∉ t ∧
        s = homeDescription s ++ (sentinel :: t) ++ (sentinel :: r)) := by
  refine ⟨?_, ?_, ?_⟩
  · intro h
    rw [homeDescription, homeText, jsSplitChar_count_zero sentinel s h]
    exact ⟨rfl, rfl⟩
  · intro h
    obtain ⟨d, u, hd, hsu, hsp⟩ := jsSplitChar_pos sentinel s (by omega)
    have hu : u.count sentinel = 0 := by
      rw [hsu, List.count_append, List.count_cons] at h
      rw [List.count_eq_zero.mpr hd,
        if_pos (beq_self_eq_true sentinel)] at h
      omega
    have hu1 : jsSplitChar sentinel u = [u] := jsSplitChar_count_zero sentinel u hu
    have hdesc : homeDescription s = d := by
      rw [homeDescription, hsp]; rfl
    refine ⟨hdesc ▸ hd, u, ?_, List.count_eq_zero.mp hu, ?_⟩
    · rw [homeText, hsp, hu1]; simp
    · rw [hdesc, hsu]
  · intro h
    obtain ⟨d, u, hd, hsu, hsp⟩ := jsSplitChar_pos sentinel s (by omega)
    have hu : 1 ≤ u.count sentinel := by
      rw [hsu, List.count_append, List.count_cons] at h
      rw [List.count_eq_zero.mpr hd,
        if_pos (beq_self_eq_true sentinel)] at h
      omega
    obtain ⟨t, r, ht, htu, htp⟩ := jsSplitChar_pos sentinel u hu
    have hdesc : homeDescription s = d := by
      rw [homeDescription, hsp]; rfl
    refine ⟨hdesc ▸ hd, t, r, ?_, ht, ?_⟩
    · rw [homeText, hsp, htp]; simp
    · rw [hdesc, hsu, htu]
      simp [List.append_assoc]

/-- Witness for C7 (amended) at a completion with exactly one sentinel. -/
theorem client_split_amended_witness :
    sentinel ∉ homeDescription ("a▲b".data) ∧
    ∃ t, homeText ("a▲b".data) = some t ∧ sentinel ∉ t ∧
      "a▲b".data = homeDescription ("a▲b".data) ++ sentinel :: t :=
  (client_split_amended ("a▲b".data)).2.1 (by decide)

/-! ### Helper lemmas about the data-URI regex -/

lemma dropLit_self_append (t r : List Char) : dropLit t (t ++ r) = some r := by
  induction t with
  | nil => rfl
  | cons c cs ih => simp [dropLit, ih]

lemma dropLit_cons_ne (a : Char) (ts : List Char) (c : Char) (cs : List Char)
    (h : c ≠ a) : dropLit (a :: ts) (c :: cs) = none := by
  simp [dropLit, h]

lemma dropLit_suffix (t s r : List Char) (h : dropLit t s = some r) : r <:+ s := by
  induction t generalizing s with
  | nil =>
    simp only [dropLit, Option.some_inj] at h
    subst h
    exact List.suffix_refl s
  | cons a ts ih =>
    cases s with
    | nil => simp [dropLit] at h
    | cons c cs =>
      by_cases e : c = a
      · simp only [dropLit, e, if_true] at h
        exact (ih cs h).trans (List.suffix_cons c cs)
      · simp [dropLit, e] at h

lemma dropLit_length (t s r : List Char) (h : dropLit t s = some r) :
    s.length = t.length + r.length := by
  induction t generalizing s with
  | nil =>
    simp only [dropLit, Option.some_inj] at h
    subst h
    simp
  | cons a ts ih =>
    cases s with
    | nil => simp [dropLit] at h
    | cons c cs =>
      by_cases e : c = a
      · simp only [dropLit, e, if_true] at h
        have := ih cs h
        simp only [List.length_cons]
        omega
      · simp [dropLit, e] at h

lemma takeWhile_length_le (q : Char → Bool) (m : List Char) (c : Char) (r : List Char)
    (hc : q c = false) : ((m ++ c :: r).takeWhile q).length ≤ m.length := by
  induction m with
  | nil => simp [List.takeWhile_cons, hc]
  | cons a as ih =>
    by_cases e : q a = true
    · simp only [List.cons_append, List.takeWhile_cons, e, if_true, List.length_cons]
      omega
    · simp [List.takeWhile_cons, e]

lemma suffix_of_suffix_le (a b s : List Char) (ha : a <:+ s) (hb : b <:+ s)
    (hl : a.length ≤ b.length) : a <:+ b := by
  obtain ⟨ta, hta⟩ := ha
  obtain ⟨tb, htb⟩ := hb
  have hlen : tb.length ≤ ta.length := by
    have h1 := congrArg List.length hta
    have h2 := congrArg List.length htb
    simp only [List.length_append] at h1 h2
    omega
  refine ⟨ta.drop tb.length, ?_⟩
  have hb2 : b = (ta ++ a).drop tb.length := by
    rw [hta, ← htb, List.drop_left]
  rw [hb2, List.drop_append_eq_append_drop, Nat.sub_eq_zero_of_le hlen, List.drop_zero]

lemma takeWhile_append_cons (p : Char → Bool) (m : List Char) (c : Char) (r : List Char)
    (hm : ∀ x ∈ m, p x = true) (hc : p c = false) :
    (m ++ c :: r).takeWhile p = m ∧ (m ++ c :: r).dropWhile p = c :: r := by
  induction m with
  | nil => simp [List.takeWhile_cons, List.dropWhile_cons, hc]
  | cons a as ih =>
    have ha : p a = true := hm a (List.mem_cons_self a as)
    obtain ⟨ih1, ih2⟩ := ih (fun x hx => hm x (List.mem_cons_of_mem a hx))
    simp [List.takeWhile_cons, List.dropWhile_cons, ha, ih1, ih2]

lemma first_bad_decomp (p : Char → Bool) (m : List Char) (h : ∃ c ∈ m, p c = false) :
    ∃ m1 c m2, (∀ x ∈ m1, p x = true) ∧ p c = false ∧ m = m1 ++ c :: m2 := by
  induction m with
  | nil => simp at h
  | cons a as ih =>
    by_cases hp : p a = true
    · have h' : ∃ c ∈ as, p c = false := by
        obtain ⟨c, hcm, hcf⟩ := h
        rcases List.mem_cons.mp hcm with e | e
        · subst e; rw [hp] at hcf; exact Bool.noConfusion hcf
        · exact ⟨c, e, hcf⟩
      obtain ⟨m1, c, m2, h1, h2, h3⟩ := ih h'
      refine ⟨a :: m1, c, m2, ?_, h2, by rw [h3]; rfl⟩
      intro x hx
      rcases List.mem_cons.mp hx with e | e
      · subst e; exact hp
      · exact h1 x e
    · exact ⟨[], a, as, by simp, by simpa using hp, rfl⟩

lemma dataURIMatch_bad_mime (m p : List Char)
    (hbad : ∃ c ∈ m, mimeChar c = false) (hsemi : ';' ∉ m) :
    dataURIMatch (dataURI m p) = none := by
  obtain ⟨m1, c, m2, h1, h2, h3⟩ := first_bad_decomp mimeChar m hbad
  have hcne : c ≠ ';' := by
    intro e
    subst e
    exact hsemi (h3 ▸ List.mem_append_right m1 (List.mem_cons_self ';' m2))
  subst h3
  have hR : (m1 ++ c :: m2) ++ (";base64,".data ++ p)
      = m1 ++ c :: (m2 ++ (";base64,".data ++ p)) := by simp
  obtain ⟨ht, hd⟩ :=
    takeWhile_append_cons mimeChar m1 c (m2 ++ (";base64,".data ++ p)) h1 h2
  have htag : dropLit (";base64,".data) (c :: (m2 ++ (";base64,".data ++ p))) = none := by
    have e : (";base64,".data) = ';' :: ("base64,".data) := rfl
    rw [e, dropLit_cons_ne _ _ _ _ hcne]
  simp only [dataURIMatch, dataURI, dropLit_self_append, hR, ht, hd, htag]

lemma dataURIMatch_some_elim (s mt payload : List Char)
    (h : dataURIMatch s = some (mt, payload)) :
    payload.any isLineTerminator = false ∧
    ∃ r1, dropLit ("data:".data) s = some r1 ∧
      dropLit (";base64,".data) (r1.dropWhile mimeChar) = some payload := by
  simp only [dataURIMatch] at h
  split at h
  · exact absurd h (by simp)
  · next r1 heq1 =>
    split at h
    · exact absurd h (by simp)
    · next pl heq2 =>
      split at h
      · exact absurd h (by simp)
      · split at h
        · exact absurd h (by simp)
        · split at h
          · exact absurd h (by simp)
          · next e3 =>
            simp only [Option.some_inj, Prod.mk.injEq] at h
            obtain ⟨hmt, hpl⟩ := h
            subst hpl
            exact ⟨by simpa using e3, r1, heq1, heq2⟩

lemma dataURIMatch_newline (m p : List Char)
    (hp : p.any isLineTerminator = true) :
    dataURIMatch (dataURI m p) = none := by
  rcases hmatch : dataURIMatch (dataURI m p) with _ | ⟨mt, payload⟩
  · rfl
  · exfalso
    obtain ⟨hclean, r1, h1, h2⟩ := dataURIMatch_some_elim _ mt payload hmatch
    have hr1 : r1 = m ++ (";base64,".data ++ p) := by
      simp only [dataURI] at h1
      rw [dropLit_self_append] at h1
      exact (Option.some_inj.mp h1).symm
    subst hr1
    have hsfx : payload <:+ m ++ (";base64,".data ++ p) :=
      (dropLit_suffix _ _ _ h2).trans (List.dropWhile_suffix mimeChar)
    have h8 : (";base64,".data).length = 8 := rfl
    have hdw := dropLit_length _ _ _ h2
    have htk : ((m ++ (";base64,".data ++ p)).takeWhile mimeChar).length ≤ m.length := by
      have hR : m ++ (";base64,".data ++ p) = m ++ ';' :: ("base64,".data ++ p) := rfl
      rw [hR]
      exact takeWhile_length_le mimeChar m ';' ("base64,".data ++ p) (by decide)
    have e0 : (m ++ (";base64,".data ++ p)).length = m.length + (8 + p.length) := by
      rw [List.length_append, List.length_append, h8]
    have e1 : ((m ++ (";base64,".data ++ p)).takeWhile mimeChar).length
        + ((m ++ (";base64,".data ++ p)).dropWhile mimeChar).length
        = m.length + (8 + p.length) := by
      rw [← List.length_append, List.takeWhile_append_dropWhile, e0]
    have e2 : ((m ++ (";base64,".data ++ p)).dropWhile mimeChar).length
        = 8 + payload.length := by
      rw [hdw, h8]
    have hlp : p.length ≤ payload.length := by omega
    have hps : p <:+ payload :=
      suffix_of_suffix_le p payload (m ++ (";base64,".data ++ p))
        ⟨m ++ ";base64,".data, by simp⟩ hsfx hlp
    obtain ⟨c, hcp, hct⟩ := List.any_eq_true.mp hp
    have hcontra : payload.any isLineTerminator = true :=
      List.any_eq_true.mpr ⟨c, hps.subset hcp, hct⟩
    rw [hclean] at hcontra
    exact Bool.noConfusion hcontra

/-! ### Claim theorems: regex rejection shape (C9) -/

/-- C9 counterexample: the string `data:x;base64,y;base64,AAAA` has the
data-URI shape with MIME part `x;base64,y`, which contains digits; yet the
relay answers with the unsupported-format error, not "Invalid image data",
because the fixed pattern re-splits the string at the earlier `;base64,`
and captures the valid MIME type `x`. -/
theorem relay_regex_rejects_counterexample :
    ("data:x;base64,y;base64,AAAA".data
      = dataURI ("x;base64,y".data) ("AAAA".data)) ∧
    (∃ c ∈ ("x;base64,y".data), c.isDigit = true) ∧
    ¬ ("data:x;base64,y;base64,AAAA".data).length > 6464471 ∧
    POST (fun _ => []) ("data:x;base64,y;base64,AAAA".data)
      = ⟨400, [unsupportedBody], []⟩ ∧
    POST (fun _ => []) ("data:x;base64,y;base64,AAAA".data)
      ≠ ⟨400, [invalidBody], []⟩ := by
  decide

/-- C9 (amended): for a size-ok string of the shape `data:<m>;base64,<p>`,
if `m` contains a character outside the regex class `[A-Za-z-+\/]` (such as
a digit or `.`) and `m` contains no `;` (a `;` inside `m` can make the
pattern re-split the string at an earlier `;base64,`), the relay answers
"Invalid image data"; and whenever the payload `p` contains a line
terminator — whatever the MIME part `m` is — the relay likewise answers
"Invalid image data", because any match's payload group runs to the end of
the string and so contains `p`. -/
theorem relay_regex_rejects (model : List Message → List (List Char)) (m p : List Char)
    (hlen : ¬ (dataURI m p).length > 6464471) :
    ((∃ c ∈ m, mimeChar c = false) → ';' ∉ m →
      POST model (dataURI m p) = ⟨400, [invalidBody], []⟩) ∧
    (p.any isLineTerminator = true →
      POST model (dataURI m p) = ⟨400, [invalidBody], []⟩) := by
  constructor
  · intro h1 h2
    have hm : decodeBase64Image (dataURI m p) = (none, none) := by
      unfold decodeBase64Image
      rw [dataURIMatch_bad_mime m p h1 h2]
    exact POST_invalid model _ hlen (Or.inl (by rw [hm]))
  · intro h1
    have hm : decodeBase64Image (dataURI m p) = (none, none) := by
      unfold decodeBase64Image
      rw [dataURIMatch_newline m p h1]
    exact POST_invalid model _ hlen (Or.inl (by rw [hm]))

/-- Witness for C9 (amended): a MIME type containing the digit `2`, and a
newline-containing payload behind the digit-containing MIME part
`x;base64,y`, are both answered with "Invalid image data". -/
theorem relay_regex_rejects_witness :
    POST (fun _ => []) (dataURI ("image/png2".data) ("AAAA".data))
      = ⟨400, [invalidBody], []⟩ ∧
    POST (fun _ => []) (dataURI ("x;base64,y".data) ("AA\nAA".data))
      = ⟨400, [invalidBody], []⟩ :=
  ⟨(relay_regex_rejects (fun _ => []) ("image/png2".data) ("AAAA".data) (by decide)).1
      (by decide) (by decide),
   (relay_regex_rejects (fun _ => []) ("x;base64,y".data) ("AA\nAA".data) (by decide)).2
      (by decide)⟩

example :
    dataURIMatch ("data:image/png;base64,AAAA".data) =
      some ("image/png".data, "AAAA".data) := by decide

example :
    dataURIMatch ("data:x;base64,y;base64,AAAA".data) =
      some ("x".data, "y;base64,AAAA".data) := by decide

example : dataURIMatch ("data:image/png;base64,".data) = none := by decide

example : dataURIMatch ("data:;base64,AAAA".data) = none := by decide

example : dataURIMatch ("data:image/png;base64,AA\nAA".data) = none := by decide

end AutoGrading
